import Mathlib

/-!
Verification of the SVG-to-PNG conversion pipeline in
`convert_svg_to_png.py` (SVGAssetConverter).

Strings are modelled as `List Char`; the file-system and the external
tools (inkscape, ImageMagick identify, rsvg-convert) are modelled as
explicit environment records describing each invocation's outcome.
-/

namespace SVGConv

/-! ### Character-string primitives -/

/-- Boolean prefix test: `hasPfx pat s` holds when `pat` is an initial
segment of `s` (models Python slice comparison `s[pos:pos+k] == pat`). -/
def hasPfx : List Char → List Char → Bool
  | [], _ => true
  | _ :: _, [] => false
  | p :: ps, c :: cs => p == c && hasPfx ps cs

/-- Index of the first occurrence of `pat` in `s`
(models Python `str.find`, with `none` for `-1`). -/
def findSub : List Char → List Char → Option Nat
  | s, pat =>
    if hasPfx pat s then some 0
    else
      match s with
      | [] => none
      | _ :: rest => (findSub rest pat).map (fun n => n + 1)

/-- Index of the first `'>'` in `s` (used for the regex `[^>]*>` tail). -/
def findGt : List Char → Option Nat
  | [] => none
  | c :: rest => if c = '>' then some 0 else (findGt rest).map (fun n => n + 1)

/-- Boolean substring test (models Python `pat in s`). -/
def containsSub : List Char → List Char → Bool
  | s, pat =>
    if hasPfx pat s then true
    else
      match s with
      | [] => false
      | _ :: rest => containsSub rest pat

/-- Fuel-driven worker for `replaceAll`; the fuel only has to dominate
the length of the string, and every branch that consumes fuel also
consumes at least one character. -/
def replaceAllF : Nat → List Char → List Char → List Char → List Char
  | 0, s, _, _ => s
  | _ + 1, [], _, _ => []
  | fuel + 1, c :: rest, pat, rep =>
    if pat ≠ [] ∧ hasPfx pat (c :: rest) = true then
      rep ++ replaceAllF fuel (List.drop pat.length (c :: rest)) pat rep
    else c :: replaceAllF fuel rest pat rep

/-- Models Python `str.replace(pat, rep)` for a nonempty pattern:
replaces every non-overlapping occurrence, scanning left to right. -/
def replaceAll (s pat rep : List Char) : List Char :=
  replaceAllF s.length s pat rep

/-- ASCII whitespace in the sense of Python's `\s` / `str.strip`
(the external tools only emit ASCII, so the Unicode spaces Python
additionally accepts are not modelled). -/
def isPySpace (c : Char) : Bool :=
  c = ' ' || c = '\t' || c = '\n' || c = '\r' || c = '\x0b' || c = '\x0c'

/-- Models Python `str.strip()` (ASCII whitespace). -/
def stripChars (s : List Char) : List Char :=
  ((s.dropWhile isPySpace).reverse.dropWhile isPySpace).reverse

/-! ### The Symbols-group extractor (`preprocess_svg_for_template`) -/

/-- The literal opening tag searched for by the extractor. -/
def symTag : List Char := ("<g id=\"Symbols\">").toList

/-- The 3-character slices recognised as nested group openers. -/
def gOpenSp : List Char := ['<', 'g', ' ']

def gOpenPl : List Char := ['<', 'g', '>']

/-- The group close tag. -/
def gClose : List Char := ['<', '/', 'g', '>']

/-- The depth-counting scan of `preprocess_svg_for_template`, phrased on
the suffix of the document that starts at the scan position.  Returns the
number of characters consumed up to and including the matching `</g>`
(so Python's `symbols_end` is the scan start plus this value), or `none`
when the document ends before the depth returns to zero. -/
def scanG : List Char → Nat → Option Nat
  | [], _ => none
  | c :: rest, depth =>
    if depth = 0 then none
    else if hasPfx gOpenSp (c :: rest) || hasPfx gOpenPl (c :: rest) then
      (scanG rest (depth + 1)).map (fun n => n + 1)
    else if hasPfx gClose (c :: rest) then
      if depth = 1 then some 4
      else (scanG rest (depth - 1)).map (fun n => n + 1)
    else (scanG rest depth).map (fun n => n + 1)

def fillNone : List Char := ("fill=\"none\"").toList

def fillBlackAttr : List Char := ("fill=\"black\"").toList

def fillEq : List Char := ("fill=").toList

def strokeEq : List Char := ("stroke=").toList

def pathSp : List Char := ("<path ").toList

def pathFillBlack : List Char := ("<path fill=\"black\" ").toList

/-- The per-match rewriter `fix_path_fill`: rewrite `fill="none"` to
`fill="black"`, then inject `fill="black"` into a fill-less tag by
replacing the literal `"<path "`; the stroke branch repeats the same
replacement under conditions that cannot hold once the first two steps
ran. -/
def fixPathFill (tag : List Char) : List Char :=
  let t1 := replaceAll tag fillNone fillBlackAttr
  let t2 := if containsSub t1 fillEq then t1 else replaceAll t1 pathSp pathFillBlack
  let t3 :=
    if containsSub t2 strokeEq && !(containsSub t2 fillBlackAttr) then
      if containsSub t2 fillEq then t2 else replaceAll t2 pathSp pathFillBlack
    else t2
  t3

/-- First five characters of a path tag. -/
def pathHead : List Char := ['<', 'p', 'a', 't', 'h']

/-- Whether position 5 of `s` holds a whitespace character. -/
def spaceAt5 (s : List Char) : Bool :=
  match s.get? 5 with
  | some w => isPySpace w
  | none => false

/-- Whether the regex `<path\s+[^>]*>` can match at the start of `s`:
the literal `<path` followed by a whitespace character.  (The `[^>]*>`
tail is handled by `findGt`: a match extends to the first `'>'`.) -/
def pathTrigger (s : List Char) : Bool := hasPfx pathHead s && spaceAt5 s

/-- Fuel-driven worker for `reSubPath`. -/
def reSubPathF : Nat → List Char → List Char
  | 0, s => s
  | _ + 1, [] => []
  | fuel + 1, c :: rest =>
    if pathTrigger (c :: rest) then
      match findGt (List.drop 6 (c :: rest)) with
      | some i =>
        fixPathFill (List.take (6 + i + 1) (c :: rest)) ++
          reSubPathF fuel (List.drop (6 + i + 1) (c :: rest))
      | none => c :: reSubPathF fuel rest
    else c :: reSubPathF fuel rest

/-- Models `re.sub(r'<path\s+[^>]*>', fix_path_fill, s)`: scan left to
right; where the pattern matches, the match runs up to and including the
first `'>'` after the mandatory whitespace, gets rewritten by
`fixPathFill`, and scanning resumes after it. -/
def reSubPath (s : List Char) : List Char := reSubPathF s.length s

/-- Fixed document header written around the extracted group
(the canonical Apple-template viewBox). -/
def svgHdr : List Char :=
  ("<?xml version=\"1.0\" encoding=\"UTF-8\"?>\n<svg version=\"1.1\" xmlns=\"http://www.w3.org/2000/svg\" viewBox=\"0 0 3300 2200\">\n").toList

def svgFtr : List Char := ("\n</svg>\n").toList

/-- The document-level behaviour of `preprocess_svg_for_template`:
`none` models Python's `return svg_path` (original file, no temporary
file substituted); `some doc` models writing `doc` to a fresh temporary
file and returning that file's path. -/
def preprocessSvg (content : List Char) : Option (List Char) :=
  match findSub content symTag with
  | none => none
  | some start =>
    match scanG (List.drop (start + symTag.length) content) 1 with
    | none => none
    | some k =>
      let grp := List.take (symTag.length + k) (List.drop start content)
      some (svgHdr ++ reSubPath grp ++ svgFtr)

/-- Synthetic depth-balanced nest: `N` plain groups wrapped around a body. -/
def nest : Nat → List Char → List Char
  | 0, body => body
  | n + 1, body => gOpenPl ++ nest n body ++ gClose

/-- `'<'`-free strings: no tag and no tag opener starts inside them. -/
def ltFree (s : List Char) : Bool := s.all (fun c => !(c == '<'))

/-- No occurrence of the two-character seed `"<p"` of a path-tag match. -/
def noLtP : List Char → Bool
  | [] => true
  | [_] => true
  | c :: d :: rest => !(c == '<' && d == 'p') && noLtP (d :: rest)

/-- The last character, if any, is not `'<'`. -/
def lastNotLt (s : List Char) : Bool :=
  match s.getLast? with
  | some c => !(c == '<')
  | none => true

/-! ### Raster images and the centering compositor -/

structure Pixel where
  r : Nat
  g : Nat
  b : Nat
  a : Nat
deriving DecidableEq, Repr

def transparentPx : Pixel := ⟨0, 0, 0, 0⟩

/-- A raster image: dimensions, whether the mode is RGBA, and the pixel
grid (meaningful on `x < width`, `y < height`). -/
structure Image where
  width : Nat
  height : Nat
  rgba : Bool
  pix : Nat → Nat → Pixel

/-- Models `PIL.Image.new('RGBA', (w, h), c)`. -/
def imageNew (w h : Nat) (c : Pixel) : Image :=
  { width := w, height := h, rgba := true, pix := fun _ _ => c }

/-- Interpolation of one pixel by the source's alpha, modelling PIL's
`paste` with an alpha mask (exact PIL integer rounding is not relied on
by any theorem below). -/
def blendPx (base src : Pixel) : Pixel :=
  { r := (base.r * (255 - src.a) + src.r * src.a) / 255
  , g := (base.g * (255 - src.a) + src.g * src.a) / 255
  , b := (base.b * (255 - src.a) + src.b * src.a) / 255
  , a := (base.a * (255 - src.a) + src.a * src.a) / 255 }

/-- Models `base.paste(img, (ox, oy), img if img.mode == 'RGBA' else None)`:
the pasted region is clipped to the canvas, offsets may be negative. -/
def pasteAt (base img : Image) (ox oy : Int) : Image :=
  { width := base.width
  , height := base.height
  , rgba := base.rgba
  , pix := fun x y =>
      if ox ≤ (x : Int) ∧ (x : Int) < ox + img.width ∧
         oy ≤ (y : Int) ∧ (y : Int) < oy + img.height then
        let u := ((x : Int) - ox).toNat
        let v := ((y : Int) - oy).toNat
        if img.rgba then blendPx (base.pix x y) (img.pix u v) else img.pix u v
      else base.pix x y }

/-- The compositing step of `convert_svg_to_png` (lines 224-234): a fully
transparent `size × size` canvas, the input pasted at
`(size - width) // 2, (size - height) // 2` (Python floor division,
hence `Int.fdiv`). -/
def compositeCenter (img : Image) (size : Nat) : Image :=
  let canvas := imageNew size size transparentPx
  let xo : Int := Int.fdiv ((size : Int) - (img.width : Int)) 2
  let yo : Int := Int.fdiv ((size : Int) - (img.height : Int)) 2
  pasteAt canvas img xo yo

/-! ### The rasterizer adapter (`convert_svg_to_png`) -/

/-- Outcome of the pair of inkscape invocations for one symbol id, plus
the state of the shared temporary PNG after each: return code of the
probe export, whether the temp PNG then exists and its size, the probe
image that `Image.open` loads, and the same data for the final export. -/
structure Attempt where
  testRc : Int
  testExists : Bool
  testSize : Nat
  testImg : Image
  exportRc : Int
  exportExists : Bool
  exportImg : Image

/-- The environment of one `convert_svg_to_png` call: the source text,
the paths involved, whether an output file pre-exists, and the outcome
of the attempts for the three symbol ids `Regular-M`, `Regular-S`,
`Regular-L` (in that order). -/
structure ConvEnv where
  svgContent : List Char
  svgPath : String
  svgName : String
  tmpSvgPath : String
  tmpPngPath : String
  pngPath : String
  pngExists0 : Bool
  mAttempt : Attempt
  sAttempt : Attempt
  lAttempt : Attempt

/-- The fixed symbol-id order gives this attempt order. -/
def attemptList (env : ConvEnv) : List Attempt :=
  [env.mAttempt, env.sAttempt, env.lAttempt]

/-- `result.returncode == 0 and temp_png_path.exists() and
temp_png_path.stat().st_size > 0` for the probe export. -/
def testOk (a : Attempt) : Bool :=
  a.testRc == 0 && a.testExists && decide (0 < a.testSize)

/-- `result.returncode == 0 and temp_png_path.exists()` for the final
export (note: no size check on this one). -/
def exportOk (a : Attempt) : Bool :=
  a.exportRc == 0 && a.exportExists

inductive LoopOut
  | success (img : Image)
  | exhausted
  | exn
deriving Nonempty

/-- The `for symbol_id in symbol_ids` loop: skip an id whose probe fails;
on a probe success with a zero-height probe image the aspect-ratio
division raises (caught by the broad `except`, aborting the call); on a
final-export success return the composited image; otherwise try the next
id. -/
def tryIds (size : Nat) : List Attempt → LoopOut
  | [] => .exhausted
  | a :: rest =>
    if testOk a then
      if a.testImg.height = 0 then .exn
      else if exportOk a then .success (compositeCenter a.exportImg size)
      else tryIds size rest
    else tryIds size rest

/-- What one `convert_svg_to_png` call did: its return value, the final
content of the output path, the paths unlinked and written (in order),
the path handed to inkscape, and the printed error, if any. -/
structure ConvResult where
  success : Bool
  out : Option Image
  unlinked : List String
  written : List String
  srcUsed : String
  errMsg : Option String

/-- The `finally` condition
`temp_svg and temp_svg != svg_path and temp_svg.exists()`: when
preprocessing fell back, `temp_svg` IS `svg_path` and nothing is
unlinked. -/
def svgCleanup (env : ConvEnv) (preprocessed : Bool) : List String :=
  if preprocessed = true ∧ env.tmpSvgPath ≠ env.svgPath then [env.tmpSvgPath]
  else []

/-- Model of `convert_svg_to_png(svg_path, png_path, size)`.  The export
commands for the two aspect-ratio branches differ only in which external
flag they pass, so they are not distinguished here; the image the final
export produces is taken from the environment. -/
def convertModel (env : ConvEnv) (size : Nat) : ConvResult :=
  let pped := preprocessSvg env.svgContent
  let preprocessed := pped.isSome
  let srcUsed := if preprocessed then env.tmpSvgPath else env.svgPath
  let preDel : List String := if env.pngExists0 then [env.pngPath] else []
  let writes0 : List String :=
    (if preprocessed then [env.tmpSvgPath] else []) ++ [env.tmpPngPath]
  match tryIds size (attemptList env) with
  | .success img =>
    { success := true
    , out := some img
    , unlinked := preDel ++ [env.tmpPngPath] ++ svgCleanup env preprocessed
    , written := writes0 ++ [env.pngPath]
    , srcUsed := srcUsed
    , errMsg := none }
  | .exhausted =>
    { success := false
    , out := none
    , unlinked := preDel ++ svgCleanup env preprocessed ++ [env.tmpPngPath]
    , written := writes0
    , srcUsed := srcUsed
    , errMsg := some ("Error converting " ++ env.svgName ++ ": No valid symbol ID found") }
  | .exn =>
    { success := false
    , out := none
    , unlinked := preDel ++ svgCleanup env preprocessed ++ [env.tmpPngPath]
    , written := writes0
    , srcUsed := srcUsed
    , errMsg := some ("Exception converting " ++ env.svgName) }

/-! ### The output validator (`verify_png`) -/

/-- Outcome of the `identify` invocation. -/
inductive ToolRun
  | raised (msg : String)
  | timedOut
  | completed (rc : Int) (stdout : List Char) (stderr : List Char)
deriving DecidableEq

/-- The diagnostic reasons `verify_png` can return. -/
inductive VReason
  | notExist
  | emptyFile
  | identifyFailed (stderr : List Char)
  | allTransparent
  | valid
  | invalidAlpha (stdout : List Char)
  | timeoutMsg
  | verifyError (msg : String)
deriving DecidableEq

/-- Split at the first occurrence of `c` (the separator removed). -/
def splitAtChar (c : Char) : List Char → Option (List Char × List Char)
  | [] => none
  | d :: rest =>
    if d = c then some ([], rest)
    else (splitAtChar c rest).map (fun p => (d :: p.1, p.2))

def digVal (c : Char) : Nat := c.toNat - 48

def natOfDigits (s : List Char) : Nat :=
  s.foldl (fun acc c => acc * 10 + digVal c) 0

def allDigits (s : List Char) : Bool := s.all Char.isDigit

/-- Mantissa of a decimal literal: digits with an optional single dot,
at least one digit overall. -/
def parseMantissa (s : List Char) : Option ℚ :=
  match splitAtChar '.' s with
  | none => if s ≠ [] ∧ allDigits s = true then some (natOfDigits s : ℚ) else none
  | some (ip, fp) =>
    if (ip ≠ [] ∨ fp ≠ []) ∧ allDigits ip = true ∧ allDigits fp = true then
      some ((natOfDigits ip : ℚ) + (natOfDigits fp : ℚ) / (10 : ℚ) ^ fp.length)
    else none

/-- Exponent tail after `e`/`E`: optional sign then digits. -/
def parseExp : List Char → Option ℤ
  | '+' :: t => if t ≠ [] ∧ allDigits t = true then some (natOfDigits t : ℤ) else none
  | '-' :: t => if t ≠ [] ∧ allDigits t = true then some (-(natOfDigits t : ℤ)) else none
  | t => if t ≠ [] ∧ allDigits t = true then some (natOfDigits t : ℤ) else none

/-- Split a mantissa from an optional exponent tail at the first
`e`/`E`. -/
def splitExp (s : List Char) : List Char × Option (List Char) :=
  match splitAtChar 'e' s with
  | some p => (p.1, some p.2)
  | none =>
    match splitAtChar 'E' s with
    | some p => (p.1, some p.2)
    | none => (s, none)

/-- Models Python `float()` on the decimal / exponent literals the
identify tool emits for `fx:` expressions (special forms such as `nan`,
`inf` or underscore separators are out of the modelled subset), as an
exact rational; `none` models `ValueError`. -/
def parseFloatQ (s : List Char) : Option ℚ :=
  let (sgn, s1) : ℚ × List Char :=
    match s with
    | '+' :: t => (1, t)
    | '-' :: t => (-1, t)
    | t => (1, t)
  let (m, eopt) := splitExp s1
  match parseMantissa m with
  | none => none
  | some q =>
    match eopt with
    | none => some (sgn * q)
    | some etail =>
      match parseExp etail with
      | none => none
      | some e => some (sgn * q * (10 : ℚ) ^ e)

/-- Model of `verify_png(png_path)`: existence, byte size, then the mean
alpha reported by `identify` under a bounded timeout; all failure paths
return a flag and a reason, none raises. -/
def verifyPng (fileExists : Bool) (fileSize : Nat) (tool : ToolRun) :
    Bool × VReason :=
  if fileExists = false then (false, .notExist)
  else if fileSize = 0 then (false, .emptyFile)
  else
    match tool with
    | .raised msg => (false, .verifyError msg)
    | .timedOut => (false, .timeoutMsg)
    | .completed rc stdout stderr =>
      if rc ≠ 0 then (false, .identifyFailed stderr)
      else
        match parseFloatQ (stripChars stdout) with
        | none => (false, .invalidAlpha stdout)
        | some q => if q < (1 : ℚ) / 100 then (false, .allTransparent) else (true, .valid)

/-! ### The batch driver (`main`) -/

/-- The static icon mapping `ICON_MAPPINGS`. -/
def ICON_MAPPINGS : List (String × String) :=
  [ ("icon.info.unavailable", "icon.info.unavailable.symbolset/icon.info.unavailable.svg")
  , ("icon.resin", "icon.resin.symbolset/resin.icon.svg")
  , ("icon.trailblazePower", "icon.trailblazePower.symbolset/icon.trailblazePower.svg")
  , ("icon.zzzBattery", "icon.zzzBattery.symbolset/icon.zzzBattery.svg")
  , ("icon.dailyTask.gi", "icon.dailyTask.gi.symbolset/icon.dailyTask.gi.svg")
  , ("icon.dailyTask.hsr", "icon.dailyTask.hsr.symbolset/icon.dailyTask.hsr.svg")
  , ("icon.dailyTask.zzz", "icon.dailyTask.zzz.symbolset/icon.dailyTask.zzz.svg")
  , ("icon.expedition.gi", "icon.expedition.gi.symbolset/icon.expedition.gi.svg")
  , ("icon.expedition.hsr", "icon.expedition.hsr.symbolset/icon.expedition.hsr.svg")
  , ("icon.transformer", "icon.transformer.symbolset/icon.transformer.svg")
  , ("icon.homeCoin", "icon.homeCoin.symbolset/icon.homeCoin.svg")
  , ("icon.trounceBlossom", "icon.trounceBlossom.symbolset/icon.trounceBlossom.svg")
  , ("icon.echoOfWar", "icon.echoOfWar.symbolset/icon.echoOfWar.svg")
  , ("icon.simulatedUniverse", "icon.simulatedUniverse.symbolset/icon.simulatedUniverse.svg")
  , ("icon.zzzVHSStore", "icon.zzzVHSStore.symbolset/icon.zzzVHSStore.svg")
  , ("icon.zzzScratch", "icon.zzzScratch.symbolset/icon.zzzScratch.svg")
  , ("icon.zzzBounty", "icon.zzzBounty.symbolset/icon.zzzBounty.svg")
  , ("icon.zzzInvestigation", "icon.zzzInvestigation.symbolset/icon.zzzInvestigation.svg") ]

/-- Per-icon environment for one batch iteration: whether the source SVG
exists, the conversion environment, and the byte size and identify
outcome seen by the validator on the written output. -/
structure IconRun where
  srcExists : Bool
  conv : ConvEnv
  pngSize : Nat
  vTool : ToolRun

inductive IconStatus
  | ok
  | invalid
  | failed
deriving DecidableEq

/-- One iteration of the `main` loop (output size fixed at 96, the
default used by `main`): an absent source records a failure and moves
on; otherwise convert, then validate the written file. -/
def runIcon (r : IconRun) : IconStatus :=
  if r.srcExists = false then .failed
  else
    let c := convertModel r.conv 96
    if c.success then
      if (verifyPng c.out.isSome r.pngSize r.vTool).1 then .ok else .invalid
    else .failed

/-- Insertion into a name-sorted list (models Python `sorted` on the
dict items; the names are the unique sort keys). -/
def insertSorted (x : String × String) :
    List (String × String) → List (String × String)
  | [] => [x]
  | y :: rest => if x.1 ≤ y.1 then x :: y :: rest else y :: insertSorted x rest

def sortMapping (l : List (String × String)) : List (String × String) :=
  l.foldr insertSorted []

structure Summary where
  converted : Nat
  invalid : Nat
  failed : Nat
  exitCode : Nat
deriving DecidableEq, Repr

/-- Model of `main`'s loop and report: iterate the sorted mapping,
classify every icon, and exit 0 exactly when the converted count equals
the mapping size. -/
def runBatch (mapping : List (String × String)) (env : String → IconRun) :
    Summary :=
  let items := sortMapping mapping
  let cnt :=
    items.foldl
      (fun acc it =>
        match runIcon (env it.1) with
        | .ok => (acc.1 + 1, acc.2.1, acc.2.2)
        | .invalid => (acc.1, acc.2.1 + 1, acc.2.2)
        | .failed => (acc.1, acc.2.1, acc.2.2 + 1))
      ((0, 0, 0) : Nat × Nat × Nat)
  { converted := cnt.1
  , invalid := cnt.2.1
  , failed := cnt.2.2
  , exitCode := if cnt.1 = mapping.length then 0 else 1 }

/-! ### The v1 startup check -/

/-- Outcome of running `rsvg-convert --version`. -/
inductive ProbeOutcome
  | notFound
  | ran (rc : Int)
deriving DecidableEq

/-- `check_rsvg_convert` (lines 38-45): `True` iff the probe ran and
returned 0; `FileNotFoundError` yields `False`. -/
def check_rsvg_convert : ProbeOutcome → Bool
  | .notFound => false
  | .ran rc => rc == 0

/-- Modelled from the spec: the v1 batch driver is not present under
`src/` (only its startup helper `check_rsvg_convert` survives, unused by
the v2 `main` in `convert_svg_to_png.py`); per the spec it checks the
rasterizer once before any per-icon work and aborts the whole batch iff
the tool is unavailable, while every other error stays local to one icon
and the batch runs to completion.  `none` models the fatal abort. -/
def mainV1 (probe : ProbeOutcome) (mapping : List (String × String))
    (env : String → IconRun) : Option Summary :=
  if check_rsvg_convert probe then some (runBatch mapping env) else none

/-! ### Concrete sample environments (used to instantiate theorems) -/

def sampleImg : Image :=
  { width := 3, height := 2, rgba := true, pix := fun _ _ => ⟨1, 2, 3, 200⟩ }

def sampleAttemptFail : Attempt :=
  { testRc := 1, testExists := false, testSize := 0, testImg := sampleImg
  , exportRc := 1, exportExists := false, exportImg := sampleImg }

def sampleAttemptOk : Attempt :=
  { testRc := 0, testExists := true, testSize := 5, testImg := sampleImg
  , exportRc := 0, exportExists := true, exportImg := sampleImg }

def sampleConvEnv : ConvEnv :=
  { svgContent := ("hello").toList
  , svgPath := "icons/a.svg"
  , svgName := "a.svg"
  , tmpSvgPath := "/tmp/t.svg"
  , tmpPngPath := "/tmp/t.png"
  , pngPath := "out/a.png"
  , pngExists0 := true
  , mAttempt := sampleAttemptFail
  , sAttempt := sampleAttemptOk
  , lAttempt := sampleAttemptFail }

/-- An icon whose source SVG is absent. -/
def sampleIconRunAbsent : IconRun :=
  { srcExists := false
  , conv := sampleConvEnv
  , pngSize := 0
  , vTool := .timedOut }

/-! ## Helper lemmas on the string primitives -/

theorem hasPfx_append_self (pat t : List Char) : hasPfx pat (pat ++ t) = true := by
  induction pat with
  | nil => rfl
  | cons p ps ih => simp [hasPfx, ih]

theorem hasPfx_refl (pat : List Char) : hasPfx pat pat = true := by
  have := hasPfx_append_self pat []
  simpa using this

theorem hasPfx_cons_ne {p c : Char} (h : p ≠ c) (ps cs : List Char) :
    hasPfx (p :: ps) (c :: cs) = false := by
  simp [hasPfx, h]

theorem hasPfx_trans {p q s : List Char} (h1 : hasPfx p q = true)
    (h2 : hasPfx q s = true) : hasPfx p s = true := by
  induction p generalizing q s with
  | nil => rfl
  | cons a p' ih =>
    cases q with
    | nil => simp [hasPfx] at h1
    | cons b q' =>
      cases s with
      | nil => simp [hasPfx] at h2
      | cons e s' =>
        simp only [hasPfx, Bool.and_eq_true, beq_iff_eq] at h1 h2 ⊢
        exact ⟨h1.1.trans h2.1, ih h1.2 h2.2⟩

theorem hasPfx_append_left {pat s : List Char} (h : hasPfx pat s = true)
    (t : List Char) : hasPfx pat (s ++ t) = true := by
  induction pat generalizing s with
  | nil => rfl
  | cons p ps ih =>
    cases s with
    | nil => simp [hasPfx] at h
    | cons c cs =>
      simp only [hasPfx, Bool.and_eq_true] at h ⊢
      exact ⟨h.1, ih h.2⟩

theorem ltFree_cons {c : Char} {s : List Char} (h : ltFree (c :: s) = true) :
    c ≠ '<' ∧ ltFree s = true := by
  simp only [ltFree, List.all_cons, Bool.and_eq_true, Bool.not_eq_true',
    beq_eq_false_iff_ne, ne_eq] at h
  exact ⟨h.1, h.2⟩

theorem findSub_ltFree_append {pre : List Char} (h : ltFree pre = true)
    (rest ps : List Char) :
    findSub (pre ++ rest) ('<' :: ps) =
      (findSub rest ('<' :: ps)).map (fun n => n + pre.length) := by
  induction pre with
  | nil =>
    simp only [List.nil_append, List.length_nil]
    cases findSub rest ('<' :: ps) <;> simp
  | cons c cs ih =>
    obtain ⟨hc, hcs⟩ := ltFree_cons h
    have hpfx : hasPfx ('<' :: ps) (c :: (cs ++ rest)) = false :=
      hasPfx_cons_ne (fun he => hc he.symm) _ _
    rw [List.cons_append, findSub]
    simp only [hpfx, Bool.false_eq_true, if_false]
    rw [ih hcs]
    cases findSub rest ('<' :: ps) <;> simp [List.length_cons] <;> omega

theorem findSub_none {s pat : List Char}
    (h : ∀ i, hasPfx pat (List.drop i s) = false) : findSub s pat = none := by
  induction s with
  | nil =>
    have h0 := h 0
    rw [List.drop_zero] at h0
    rw [findSub]
    simp [h0]
  | cons c rest ih =>
    have h0 := h 0
    rw [List.drop_zero] at h0
    rw [findSub]
    simp only [h0, Bool.false_eq_true, if_false]
    have : findSub rest pat = none :=
      ih (fun i => by have hi := h (i + 1); rwa [List.drop_succ_cons] at hi)
    simp [this]

theorem scanG_skip {c : Char} (hc : c ≠ '<') (s : List Char) {d : Nat}
    (hd : d ≠ 0) : scanG (c :: s) d = (scanG s d).map (fun n => n + 1) := by
  have h1 : hasPfx gOpenSp (c :: s) = false :=
    hasPfx_cons_ne (fun he => hc he.symm) _ _
  have h2 : hasPfx gOpenPl (c :: s) = false :=
    hasPfx_cons_ne (fun he => hc he.symm) _ _
  have h3 : hasPfx gClose (c :: s) = false :=
    hasPfx_cons_ne (fun he => hc he.symm) _ _
  simp [scanG, hd, h1, h2, h3]

theorem scanG_ltFree {cs : List Char} (h : ltFree cs = true) (t : List Char)
    {d : Nat} (hd : d ≠ 0) :
    scanG (cs ++ t) d = (scanG t d).map (fun n => n + cs.length) := by
  induction cs with
  | nil =>
    simp only [List.nil_append, List.length_nil]
    cases scanG t d <;> simp
  | cons c cs ih =>
    obtain ⟨hc, hcs⟩ := ltFree_cons h
    rw [List.cons_append, scanG_skip hc _ hd, ih hcs]
    cases scanG t d <;> simp [List.length_cons] <;> omega

theorem scanG_openPl (s : List Char) {d : Nat} (hd : d ≠ 0) :
    scanG (gOpenPl ++ s) d = (scanG s (d + 1)).map (fun n => n + 3) := by
  show scanG ('<' :: 'g' :: '>' :: s) d = _
  have hv : hasPfx gOpenPl ('<' :: 'g' :: '>' :: s) = true := rfl
  have hd1 : d + 1 ≠ 0 := by omega
  rw [scanG]
  simp only [hd, if_false, hv, Bool.or_true, if_true]
  rw [scanG_skip (by decide) ('>' :: s) hd1, scanG_skip (by decide) s hd1]
  cases scanG s (d + 1) <;> simp

theorem scanG_close_one (s : List Char) : scanG (gClose ++ s) 1 = some 4 := by
  show scanG ('<' :: '/' :: 'g' :: '>' :: s) 1 = some 4
  have h1 : hasPfx gOpenSp ('<' :: '/' :: 'g' :: '>' :: s) = false := rfl
  have h2 : hasPfx gOpenPl ('<' :: '/' :: 'g' :: '>' :: s) = false := rfl
  have h3 : hasPfx gClose ('<' :: '/' :: 'g' :: '>' :: s) = true := rfl
  simp [scanG, h1, h2, h3]

theorem scanG_close_deep (s : List Char) {d : Nat} (hd : 2 ≤ d) :
    scanG (gClose ++ s) d = (scanG s (d - 1)).map (fun n => n + 4) := by
  show scanG ('<' :: '/' :: 'g' :: '>' :: s) d = _
  have hd0 : d ≠ 0 := by omega
  have hd1 : d ≠ 1 := by omega
  have hdm : d - 1 ≠ 0 := by omega
  have h1 : hasPfx gOpenSp ('<' :: '/' :: 'g' :: '>' :: s) = false := rfl
  have h2 : hasPfx gOpenPl ('<' :: '/' :: 'g' :: '>' :: s) = false := rfl
  have h3 : hasPfx gClose ('<' :: '/' :: 'g' :: '>' :: s) = true := rfl
  rw [scanG]
  simp only [hd0, if_false, h1, h2, h3, Bool.or_self, Bool.false_or, if_true,
    hd1]
  rw [scanG_skip (by decide) ('g' :: '>' :: s) hdm,
    scanG_skip (by decide) ('>' :: s) hdm, scanG_skip (by decide) s hdm]
  cases scanG s (d - 1) <;> simp

theorem scanG_nest (N : Nat) {body : List Char} (hb : ltFree body = true)
    (t : List Char) {d : Nat} (hd : d ≠ 0) :
    scanG (nest N body ++ t) d =
      (scanG t d).map (fun n => n + (nest N body).length) := by
  induction N generalizing t d hd with
  | zero => exact scanG_ltFree hb t hd
  | succ n ih =>
    have hd1 : (d + 1) ≠ 0 := by omega
    rw [nest]
    simp only [List.append_assoc]
    rw [scanG_openPl _ hd, ih (gClose ++ t) hd1,
      scanG_close_deep _ (by omega), Nat.add_sub_cancel]
    cases scanG t d <;>
      simp [List.length_append, gOpenPl, gClose] <;> omega

/-! ## Helper lemmas: `reSubPath` is the identity away from path tags -/

theorem noLtP_tail {c : Char} {s : List Char} (h : noLtP (c :: s) = true) :
    noLtP s = true := by
  cases s with
  | nil => rfl
  | cons d t =>
    simp only [noLtP, Bool.and_eq_true] at h
    exact h.2

theorem pathTrigger_false_of_noLtP {c : Char} {s : List Char}
    (h : noLtP (c :: s) = true) : pathTrigger (c :: s) = false := by
  cases s with
  | nil =>
    have hp : hasPfx pathHead (c :: ([] : List Char)) = false := by
      simp [pathHead, hasPfx]
    simp [pathTrigger, hp]
  | cons d t =>
    simp only [noLtP, Bool.and_eq_true, Bool.not_eq_true',
      Bool.and_eq_false_iff, beq_eq_false_iff_ne, ne_eq] at h
    have hp : hasPfx pathHead (c :: d :: t) = false := by
      simp only [pathHead, hasPfx, Bool.and_eq_false_iff, beq_eq_false_iff_ne,
        ne_eq]
      rcases h.1 with h1 | h1
      · exact Or.inl (fun he => h1 he.symm)
      · exact Or.inr (Or.inl (fun he => h1 he.symm))
    simp [pathTrigger, hp]

theorem reSubPathF_id (fuel : Nat) {s : List Char} (h : noLtP s = true) :
    reSubPathF fuel s = s := by
  induction fuel generalizing s with
  | zero => rfl
  | succ fuel ih =>
    cases s with
    | nil => rfl
    | cons c rest =>
      have htrig := pathTrigger_false_of_noLtP h
      simp only [reSubPathF, htrig, Bool.false_eq_true, if_false]
      rw [ih (noLtP_tail h)]

theorem reSubPath_id {s : List Char} (h : noLtP s = true) : reSubPath s = s :=
  reSubPathF_id _ h

theorem lastNotLt_of_ltFree {s : List Char} (h : ltFree s = true) :
    lastNotLt s = true := by
  induction s with
  | nil => rfl
  | cons c cs ih =>
    obtain ⟨hc, hcs⟩ := ltFree_cons h
    cases cs with
    | nil => simp [lastNotLt, List.getLast?_singleton, hc]
    | cons d t =>
      have hrec := ih hcs
      simp only [lastNotLt, List.getLast?_cons_cons]
      simpa only [lastNotLt] using hrec

theorem noLtP_of_ltFree {s : List Char} (h : ltFree s = true) :
    noLtP s = true := by
  induction s with
  | nil => rfl
  | cons c cs ih =>
    obtain ⟨hc, hcs⟩ := ltFree_cons h
    cases cs with
    | nil => rfl
    | cons d t =>
      simp only [noLtP, Bool.and_eq_true]
      exact ⟨by simp [hc], ih hcs⟩

theorem lastNotLt_append {a b : List Char} (hb : b ≠ []) :
    lastNotLt (a ++ b) = lastNotLt b := by
  simp only [lastNotLt]
  rw [List.getLast?_append_of_ne_nil a hb]

theorem lastNotLt_append2 {a b : List Char} (ha : lastNotLt a = true)
    (hb : lastNotLt b = true) : lastNotLt (a ++ b) = true := by
  cases b with
  | nil => simpa using ha
  | cons d t =>
    rw [lastNotLt_append (by simp)]
    exact hb

theorem noLtP_append {a b : List Char} (ha : noLtP a = true)
    (hb : noLtP b = true) (hl : lastNotLt a = true) :
    noLtP (a ++ b) = true := by
  induction a with
  | nil => simpa using hb
  | cons c cs ih =>
    cases cs with
    | nil =>
      cases b with
      | nil => simpa using ha
      | cons d t =>
        have hc : (c == '<') = false := by
          simpa only [lastNotLt, List.getLast?_singleton, Bool.not_eq_true']
            using hl
        simp only [List.cons_append, List.nil_append, noLtP, Bool.and_eq_true]
        exact ⟨by simp [hc], hb⟩
    | cons e cs' =>
      simp only [List.cons_append]
      simp only [noLtP, Bool.and_eq_true] at ha ⊢
      refine ⟨ha.1, ?_⟩
      have hl' : lastNotLt (e :: cs') = true := by
        simpa only [lastNotLt, List.getLast?_cons_cons] using hl
      exact ih ha.2 hl'

theorem noLtP_nest (N : Nat) {body : List Char} (hb : ltFree body = true) :
    noLtP (nest N body) = true ∧ lastNotLt (nest N body) = true := by
  induction N with
  | zero => exact ⟨noLtP_of_ltFree hb, lastNotLt_of_ltFree hb⟩
  | succ n ih =>
    rw [nest]
    have ha1 : noLtP (gOpenPl ++ nest n body) = true :=
      noLtP_append (by decide) ih.1 (by decide)
    have hl1 : lastNotLt (gOpenPl ++ nest n body) = true :=
      lastNotLt_append2 (by decide) ih.2
    exact ⟨noLtP_append ha1 (by decide) hl1,
      lastNotLt_append2 hl1 (by decide)⟩

/-! ## Helper lemmas on `containsSub` and `replaceAll` -/

theorem containsSub_cons_eq (c : Char) (rest pat : List Char) :
    containsSub (c :: rest) pat =
      (hasPfx pat (c :: rest) || containsSub rest pat) := by
  rw [containsSub.eq_def]
  cases hx : hasPfx pat (c :: rest) <;> simp [hx]

theorem containsSub_nil_eq (pat : List Char) :
    containsSub [] pat = hasPfx pat [] := by
  rw [containsSub.eq_def]
  cases hx : hasPfx pat ([] : List Char) <;> simp [hx]

theorem containsSub_of_hasPfx {s pat : List Char} (h : hasPfx pat s = true) :
    containsSub s pat = true := by
  rw [containsSub.eq_def]
  simp [h]

theorem containsSub_cons (c : Char) {rest pat : List Char}
    (h : containsSub rest pat = true) : containsSub (c :: rest) pat = true := by
  rw [containsSub_cons_eq]
  simp [h]

theorem containsSub_append_left {a pat : List Char}
    (h : containsSub a pat = true) (b : List Char) :
    containsSub (a ++ b) pat = true := by
  induction a with
  | nil =>
    rw [containsSub_nil_eq] at h
    exact containsSub_of_hasPfx (hasPfx_append_left h b)
  | cons c cs ih =>
    rw [containsSub_cons_eq] at h
    rcases Bool.or_eq_true_iff.mp h with h1 | h1
    · exact containsSub_of_hasPfx (hasPfx_append_left h1 b)
    · exact containsSub_cons c (ih h1)

theorem containsSub_of_pfx_trans {q s r : List Char}
    (hqs : hasPfx q s = true) (hr : containsSub q r = true) :
    containsSub s r = true := by
  induction q generalizing s with
  | nil =>
    rw [containsSub_nil_eq] at hr
    have : r = [] := by
      cases r with
      | nil => rfl
      | cons x xs => simp [hasPfx] at hr
    subst this
    exact containsSub_of_hasPfx rfl
  | cons qc qt ih =>
    cases s with
    | nil => simp [hasPfx] at hqs
    | cons sc st =>
      simp only [hasPfx, Bool.and_eq_true, beq_iff_eq] at hqs
      rw [containsSub_cons_eq] at hr
      rcases Bool.or_eq_true_iff.mp hr with h1 | h1
      · exact containsSub_of_hasPfx
          (hasPfx_trans h1 (by simp [hasPfx, hqs.1, hqs.2]))
      · exact containsSub_cons sc (ih hqs.2 h1)

theorem containsSub_trans {s q r : List Char} (h1 : containsSub s q = true)
    (h2 : containsSub q r = true) : containsSub s r = true := by
  induction s with
  | nil =>
    rw [containsSub_nil_eq] at h1
    exact containsSub_of_pfx_trans h1 h2
  | cons c cs ih =>
    rw [containsSub_cons_eq] at h1
    rcases Bool.or_eq_true_iff.mp h1 with hp | hp
    · exact containsSub_of_pfx_trans hp h2
    · exact containsSub_cons c (ih hp)

theorem replaceAllF_id (fuel : Nat) {s pat : List Char} (rep : List Char)
    (h : containsSub s pat = false) : replaceAllF fuel s pat rep = s := by
  induction fuel generalizing s with
  | zero => rfl
  | succ fuel ih =>
    cases s with
    | nil => rfl
    | cons c rest =>
      rw [containsSub_cons_eq] at h
      have h1 : hasPfx pat (c :: rest) = false := by
        cases hx : hasPfx pat (c :: rest) <;> simp [hx] at h ⊢
      have h2 : containsSub rest pat = false := by
        cases hx : containsSub rest pat <;> simp [hx, h1] at h ⊢
      have hcond : ¬(pat ≠ [] ∧ hasPfx pat (c :: rest) = true) := by
        simp [h1]
      simp only [replaceAllF, if_neg hcond]
      rw [ih h2]

theorem replaceAll_id {s pat : List Char} (rep : List Char)
    (h : containsSub s pat = false) : replaceAll s pat rep = s :=
  replaceAllF_id _ rep h

theorem replaceAllF_contains_rep (fuel : Nat) {s pat : List Char}
    (rep : List Char) (hpat : pat ≠ []) (hs : containsSub s pat = true)
    (hfuel : s.length ≤ fuel) :
    containsSub (replaceAllF fuel s pat rep) rep = true := by
  induction fuel generalizing s with
  | zero =>
    have hnil : s = [] := List.eq_nil_of_length_eq_zero (by omega)
    subst hnil
    rw [containsSub_nil_eq] at hs
    cases pat with
    | nil => exact absurd rfl hpat
    | cons p ps => simp [hasPfx] at hs
  | succ fuel ih =>
    cases s with
    | nil =>
      rw [containsSub_nil_eq] at hs
      cases pat with
      | nil => exact absurd rfl hpat
      | cons p ps => simp [hasPfx] at hs
    | cons c rest =>
      by_cases h1 : hasPfx pat (c :: rest) = true
      · have hcond : pat ≠ [] ∧ hasPfx pat (c :: rest) = true := ⟨hpat, h1⟩
        simp only [replaceAllF, if_pos hcond]
        exact containsSub_append_left
          (containsSub_of_hasPfx (hasPfx_refl rep)) _
      · have hcond : ¬(pat ≠ [] ∧ hasPfx pat (c :: rest) = true) := by
          simp [h1]
        rw [containsSub_cons_eq] at hs
        have h2 : containsSub rest pat = true := by
          rcases Bool.or_eq_true_iff.mp hs with hx | hx
          · exact absurd hx h1
          · exact hx
        simp only [replaceAllF, if_neg hcond]
        exact containsSub_cons c
          (ih h2 (by simp only [List.length_cons] at hfuel; omega))

theorem replaceAll_contains_rep {s pat : List Char} (rep : List Char)
    (hpat : pat ≠ []) (hs : containsSub s pat = true) :
    containsSub (replaceAll s pat rep) rep = true :=
  replaceAllF_contains_rep _ rep hpat hs le_rfl

/-! ## Claim theorems -/

/-- C2: for every SVG whose text is an arbitrary `'<'`-free prefix, the
literal `<g id="Symbols">` tag, `N ≥ 0` nested groups around a
`'<'`-free body, the matching close tag, and arbitrary trailing sibling
content, the depth-counting scan locates the matching close tag and the
emitted document is exactly the canonical-viewBox header, the content of
the Symbols group (on which the path-fill rewrite is the identity, since
the group holds no path tags), and the footer — no sibling content from
outside the group. -/
theorem extractor_locates_matching_close (pre body post : List Char) (N : Nat)
    (hpre : ltFree pre = true) (hbody : ltFree body = true) :
    preprocessSvg (pre ++ symTag ++ nest N body ++ gClose ++ post) =
      some (svgHdr ++ (symTag ++ nest N body ++ gClose) ++ svgFtr) := by
  have hone : (1 : Nat) ≠ 0 := one_ne_zero
  have hscan : scanG (nest N body ++ (gClose ++ post)) 1 =
      some ((nest N body).length + 4) := by
    rw [scanG_nest N hbody _ hone, scanG_close_one]
    simp [Nat.add_comm]
  have hsym : symTag = '<' :: ("g id=\"Symbols\">").toList := rfl
  have hfind0 :
      findSub (symTag ++ (nest N body ++ (gClose ++ post))) symTag = some 0 := by
    rw [findSub.eq_def]
    simp [hasPfx_append_self]
  have hfind :
      findSub (pre ++ (symTag ++ (nest N body ++ (gClose ++ post)))) symTag =
        some pre.length := by
    rw [hsym, findSub_ltFree_append hpre, ← hsym, hfind0]
    simp
  have hdrop1 :
      List.drop (pre.length + symTag.length)
        (pre ++ (symTag ++ (nest N body ++ (gClose ++ post)))) =
        nest N body ++ (gClose ++ post) := by
    rw [← List.append_assoc]
    exact List.drop_left' (by simp [List.length_append])
  have hdrop0 :
      List.drop pre.length
        (pre ++ (symTag ++ (nest N body ++ (gClose ++ post)))) =
        symTag ++ (nest N body ++ (gClose ++ post)) := List.drop_left pre _
  have htake :
      List.take (symTag.length + ((nest N body).length + 4))
        (symTag ++ (nest N body ++ (gClose ++ post))) =
        symTag ++ (nest N body ++ gClose) := by
    have hshape : symTag ++ (nest N body ++ (gClose ++ post)) =
        (symTag ++ (nest N body ++ gClose)) ++ post := by
      simp [List.append_assoc]
    rw [hshape]
    exact List.take_left' (by simp [List.length_append, gClose])
  have hgrp : noLtP (symTag ++ (nest N body ++ gClose)) = true := by
    obtain ⟨hn1, hn2⟩ := noLtP_nest N hbody
    exact noLtP_append (by decide)
      (noLtP_append hn1 (by decide) hn2) (by decide)
  simp only [List.append_assoc]
  simp only [preprocessSvg, hfind, hdrop1, hscan, hdrop0, htake]
  rw [reSubPath_id hgrp]
  simp [List.append_assoc]

/-- C2 witness: a concrete instance with one prefix character, two
nested groups, a two-character body and trailing content. -/
theorem extractor_locates_matching_close_witness :
    preprocessSvg ((("x").toList) ++ symTag ++ nest 2 (("ab").toList) ++
        gClose ++ (("tail").toList)) =
      some (svgHdr ++ (symTag ++ nest 2 (("ab").toList) ++ gClose) ++ svgFtr) :=
  extractor_locates_matching_close _ _ _ 2 (by decide) (by decide)

/-- C6 (amended): the fill rewrite of `fix_path_fill`, per matched tag:
a tag that begins with the literal `"<path "` (space!) and has no
`fill=` gets a black fill injected; a tag containing `fill="none"` ends
up containing `fill="black"`; a tag with a fill attribute and no
`fill="none"` is left unmodified.  (The original claim fails for path
elements whose `<path` is followed by whitespace other than a space, see
the counterexample.) -/
theorem fixfill_behaviour (tag rest : List Char) :
    (tag = pathSp ++ rest → containsSub tag fillEq = false →
       containsSub (fixPathFill tag) fillBlackAttr = true)
  ∧ (containsSub tag fillNone = true →
       containsSub (fixPathFill tag) fillBlackAttr = true)
  ∧ (containsSub tag fillEq = true → containsSub tag fillNone = false →
       fixPathFill tag = tag) := by
  refine ⟨?_, ?_, ?_⟩
  · intro htag hfe
    have hfn : containsSub tag fillNone = false := by
      cases hx : containsSub tag fillNone with
      | false => rfl
      | true =>
        have hc : containsSub tag fillEq = true :=
          containsSub_trans hx (by decide)
        rw [hc] at hfe
        cases hfe
    have ht1 : replaceAll tag fillNone fillBlackAttr = tag :=
      replaceAll_id _ hfn
    have hps : containsSub tag pathSp = true := by
      rw [htag]
      exact containsSub_of_hasPfx (hasPfx_append_self _ _)
    have ht2 :
        containsSub (replaceAll tag pathSp pathFillBlack) fillBlackAttr = true := by
      have h0 :
          containsSub (replaceAll tag pathSp pathFillBlack) pathFillBlack = true :=
        replaceAll_contains_rep _ (by decide) hps
      exact containsSub_trans h0 (by decide)
    simp only [fixPathFill, ht1, hfe, Bool.false_eq_true, if_false, ht2,
      Bool.not_true, Bool.and_false]
  · intro hfn
    have ht1 :
        containsSub (replaceAll tag fillNone fillBlackAttr) fillBlackAttr = true :=
      replaceAll_contains_rep _ (by decide) hfn
    have hfe :
        containsSub (replaceAll tag fillNone fillBlackAttr) fillEq = true :=
      containsSub_trans ht1 (by decide)
    simp only [fixPathFill, hfe, if_true, ht1, Bool.not_true, Bool.and_false,
      Bool.false_eq_true, if_false]
  · intro hfe hfn
    have ht1 : replaceAll tag fillNone fillBlackAttr = tag :=
      replaceAll_id _ hfn
    simp only [fixPathFill, ht1, hfe, if_true, ite_self]

/-- C6 witness: the three behaviours at concrete tags. -/
theorem fixfill_behaviour_witness :
    containsSub (fixPathFill (("<path d=\"M0\"/>").toList)) fillBlackAttr = true
  ∧ containsSub (fixPathFill (("<path fill=\"none\"/>").toList)) fillBlackAttr
      = true
  ∧ fixPathFill (("<path fill=\"red\"/>").toList) =
      ("<path fill=\"red\"/>").toList :=
  ⟨(fixfill_behaviour (("<path d=\"M0\"/>").toList) (("d=\"M0\"/>").toList)).1
      (by decide) (by decide),
   (fixfill_behaviour (("<path fill=\"none\"/>").toList) []).2.1 (by decide),
   (fixfill_behaviour (("<path fill=\"red\"/>").toList) []).2.2 (by decide)
      (by decide)⟩

set_option maxRecDepth 8000 in
/-- C6 counterexample: a path element whose `<path` is followed by a
newline (still matched by the regex, since `\s` accepts it) and which
has no fill attribute passes through the extractor without any fill
injected — `str.replace('<path ', ...)` looks for a space — so the
extractor output contains a path element with no `fill=` at all,
refuting "every path element lacking an explicit fill attribute has
fill set to black". -/
theorem fixfill_counterexample :
    preprocessSvg (("<g id=\"Symbols\"><path\nd=\"M1 1Z\"/></g>").toList) =
      some (svgHdr ++ ("<g id=\"Symbols\"><path\nd=\"M1 1Z\"/></g>").toList ++
        svgFtr)
  ∧ containsSub
      (svgHdr ++ ("<g id=\"Symbols\"><path\nd=\"M1 1Z\"/></g>").toList ++
        svgFtr) fillEq = false := by
  constructor
  · decide
  · decide

/-- C7: when the document does not contain the literal opening tag, or
the depth scan runs off the end of the document, the extractor returns
the original path (`none` in the model, meaning no temporary file is
substituted), and the conversion routine then hands the original source
path to the rasterizer. -/
theorem preprocess_fallback_behaviour (content : List Char) :
    ((∀ i : Nat, hasPfx symTag (List.drop i content) = false) →
       preprocessSvg content = none)
  ∧ (∀ start : Nat, findSub content symTag = some start →
       scanG (List.drop (start + symTag.length) content) 1 = none →
       preprocessSvg content = none)
  ∧ (∀ (env : ConvEnv) (size : Nat), env.svgContent = content →
       preprocessSvg content = none →
       (convertModel env size).srcUsed = env.svgPath) := by
  refine ⟨?_, ?_, ?_⟩
  · intro h
    simp only [preprocessSvg, findSub_none h]
  · intro start h1 h2
    simp only [preprocessSvg, h1, h2]
  · intro env size hc hnone
    have henv : preprocessSvg env.svgContent = none := by rw [hc]; exact hnone
    cases htry : tryIds size (attemptList env) <;>
      simp [convertModel, henv, htry]

/-- C7 witness: a document with no opening tag, a document whose depth
never returns to zero, and the conversion routine on the sample
environment (whose document has no opening tag) using the original
source path. -/
theorem preprocess_fallback_witness :
    preprocessSvg (("hello").toList) = none
  ∧ preprocessSvg (symTag ++ ("<g>").toList) = none
  ∧ (convertModel sampleConvEnv 96).srcUsed = sampleConvEnv.svgPath := by
  have h1 : preprocessSvg (("hello").toList) = none := by
    refine (preprocess_fallback_behaviour _).1 (fun i => ?_)
    by_cases hi : i < 5
    · interval_cases i <;> decide
    · have h5 : (("hello").toList).length = 5 := rfl
      rw [List.drop_eq_nil_of_le (by omega)]
      decide
  refine ⟨h1, ?_, ?_⟩
  · exact (preprocess_fallback_behaviour _).2.1 0 (by decide) (by decide)
  · exact (preprocess_fallback_behaviour (("hello").toList)).2.2
      sampleConvEnv 96 rfl h1

/-- C3: for an input no larger than the target size in either dimension,
the compositing step builds a fully transparent square canvas of exactly
`size × size` and pastes the input unscaled at the integer floor offsets
`(size - width) / 2` and `(size - height) / 2`: outside the pasted
rectangle every pixel is transparent, inside it the input pixel appears
translated only (blended against the transparent canvas through its own
alpha when the input is RGBA). -/
theorem compositor_postcondition (img : Image) (size : Nat)
    (hw : img.width ≤ size) (hh : img.height ≤ size) :
    (compositeCenter img size).width = size
  ∧ (compositeCenter img size).height = size
  ∧ Int.fdiv ((size : Int) - (img.width : Int)) 2 =
      (((size - img.width) / 2 : Nat) : Int)
  ∧ Int.fdiv ((size : Int) - (img.height : Int)) 2 =
      (((size - img.height) / 2 : Nat) : Int)
  ∧ (∀ x y : Nat,
      (size - img.width) / 2 ≤ x → x < (size - img.width) / 2 + img.width →
      (size - img.height) / 2 ≤ y → y < (size - img.height) / 2 + img.height →
      (compositeCenter img size).pix x y =
        (if img.rgba then
          blendPx transparentPx
            (img.pix (x - (size - img.width) / 2)
              (y - (size - img.height) / 2))
        else
          img.pix (x - (size - img.width) / 2)
            (y - (size - img.height) / 2)))
  ∧ (∀ x y : Nat,
      (x < (size - img.width) / 2 ∨ (size - img.width) / 2 + img.width ≤ x ∨
       y < (size - img.height) / 2 ∨
       (size - img.height) / 2 + img.height ≤ y) →
      (compositeCenter img size).pix x y = transparentPx) := by
  have hfw : Int.fdiv ((size : Int) - (img.width : Int)) 2 =
      (((size - img.width) / 2 : Nat) : Int) := by
    have hcast : (size : Int) - (img.width : Int) =
        ((size - img.width : Nat) : Int) := by omega
    rw [hcast, Int.fdiv_eq_ediv _ (by norm_num)]
    exact (Int.ofNat_ediv (size - img.width) 2).symm
  have hfh : Int.fdiv ((size : Int) - (img.height : Int)) 2 =
      (((size - img.height) / 2 : Nat) : Int) := by
    have hcast : (size : Int) - (img.height : Int) =
        ((size - img.height : Nat) : Int) := by omega
    rw [hcast, Int.fdiv_eq_ediv _ (by norm_num)]
    exact (Int.ofNat_ediv (size - img.height) 2).symm
  refine ⟨rfl, rfl, hfw, hfh, ?_, ?_⟩
  · intro x y h1 h2 h3 h4
    simp only [compositeCenter, pasteAt, imageNew, hfw, hfh]
    rw [if_pos]
    · have hux : (((x : Nat) : Int) - (((size - img.width) / 2 : Nat) : Int)).toNat
          = x - (size - img.width) / 2 := by omega
      have huy : (((y : Nat) : Int) - (((size - img.height) / 2 : Nat) : Int)).toNat
          = y - (size - img.height) / 2 := by omega
      rw [hux, huy]
    · refine ⟨by omega, by omega, by omega, by omega⟩
  · intro x y hout
    simp only [compositeCenter, pasteAt, imageNew, hfw, hfh]
    rw [if_neg]
    intro hcon
    omega

/-- C3 witness: the sample 3×2 image composited onto a 96×96 canvas. -/
theorem compositor_postcondition_witness :
    (compositeCenter sampleImg 96).width = 96
  ∧ (compositeCenter sampleImg 96).height = 96
  ∧ (compositeCenter sampleImg 96).pix 0 0 = transparentPx := by
  obtain ⟨w, h, _, _, _, houter⟩ :=
    compositor_postcondition sampleImg 96 (by decide) (by decide)
  exact ⟨w, h, houter 0 0 (by decide)⟩

/-- C9: the `size × size` postcondition needs no precondition on the
input dimensions: the transparent canvas is allocated at the target size
unconditionally, an oversized input gets a strictly negative paste
offset, and the paste is cropped to the canvas — every canvas pixel is
either a translated input pixel (when the paste rectangle covers it) or
transparent, and nothing fails or grows beyond `size × size`. -/
theorem compositor_size_unconditional (img : Image) (size : Nat) :
    (compositeCenter img size).width = size
  ∧ (compositeCenter img size).height = size
  ∧ (size < img.width → Int.fdiv ((size : Int) - (img.width : Int)) 2 < 0)
  ∧ (∀ x y : Nat,
      (Int.fdiv ((size : Int) - (img.width : Int)) 2 ≤ (x : Int) ∧
       (x : Int) < Int.fdiv ((size : Int) - (img.width : Int)) 2 + img.width ∧
       Int.fdiv ((size : Int) - (img.height : Int)) 2 ≤ (y : Int) ∧
       (y : Int) < Int.fdiv ((size : Int) - (img.height : Int)) 2 + img.height) →
      (compositeCenter img size).pix x y =
        (if img.rgba then
          blendPx transparentPx
            (img.pix ((x : Int) - Int.fdiv ((size : Int) - (img.width : Int)) 2).toNat
              ((y : Int) - Int.fdiv ((size : Int) - (img.height : Int)) 2).toNat)
        else
          img.pix ((x : Int) - Int.fdiv ((size : Int) - (img.width : Int)) 2).toNat
            ((y : Int) - Int.fdiv ((size : Int) - (img.height : Int)) 2).toNat))
  ∧ (∀ x y : Nat,
      ¬(Int.fdiv ((size : Int) - (img.width : Int)) 2 ≤ (x : Int) ∧
        (x : Int) < Int.fdiv ((size : Int) - (img.width : Int)) 2 + img.width ∧
        Int.fdiv ((size : Int) - (img.height : Int)) 2 ≤ (y : Int) ∧
        (y : Int) < Int.fdiv ((size : Int) - (img.height : Int)) 2 + img.height) →
      (compositeCenter img size).pix x y = transparentPx) := by
  refine ⟨rfl, rfl, ?_, ?_, ?_⟩
  · intro hlt
    have hns : (size : Int) - (img.width : Int) =
        Int.negSucc (img.width - size - 1) := by
      rw [Int.negSucc_eq]
      omega
    rw [hns]
    exact Int.negSucc_lt_zero _
  · intro x y hin
    simp only [compositeCenter, pasteAt, imageNew]
    rw [if_pos hin]
  · intro x y hout
    simp only [compositeCenter, pasteAt, imageNew]
    rw [if_neg hout]

/-- C9 witness: a 5×1 image (wider than the canvas) still yields a 3×3
output, at a negative x offset. -/
theorem compositor_size_unconditional_witness :
    (compositeCenter (Image.mk 5 1 true (fun _ _ => ⟨9, 9, 9, 255⟩)) 3).width = 3
  ∧ (compositeCenter (Image.mk 5 1 true (fun _ _ => ⟨9, 9, 9, 255⟩)) 3).height = 3
  ∧ Int.fdiv ((3 : Int) - ((5 : Nat) : Int)) 2 < 0 := by
  obtain ⟨w, h, hneg, _, _⟩ :=
    compositor_size_unconditional (Image.mk 5 1 true (fun _ _ => ⟨9, 9, 9, 255⟩)) 3
  exact ⟨w, h, hneg (by decide)⟩

/-- C4 (amended): the validator checks, in order and short-circuiting,
existence, non-zero byte size, then the mean alpha reported by the
identify tool; it is a total function (never raises) returning a flag
and a reason; missing tool / timeout / non-zero exit / unparseable
output all degrade to invalid with the matching reason; the image is
accepted exactly when the parsed mean alpha is AT LEAST 0.01 (a mean of
exactly 0.01 validates — see the counterexample against the strict
"exceeds" reading). -/
theorem validator_checks_in_order (fileExists : Bool) (fileSize : Nat)
    (tool : ToolRun) :
    ((fileExists = false →
        verifyPng fileExists fileSize tool = (false, .notExist))
  ∧ (fileExists = true → fileSize = 0 →
        verifyPng fileExists fileSize tool = (false, .emptyFile))
  ∧ (∀ msg, fileExists = true → fileSize ≠ 0 → tool = .raised msg →
        verifyPng fileExists fileSize tool = (false, .verifyError msg))
  ∧ (fileExists = true → fileSize ≠ 0 → tool = .timedOut →
        verifyPng fileExists fileSize tool = (false, .timeoutMsg)))
  ∧ ((∀ rc stdout stderr, fileExists = true → fileSize ≠ 0 →
        tool = .completed rc stdout stderr → rc ≠ 0 →
        verifyPng fileExists fileSize tool = (false, .identifyFailed stderr))
  ∧ (∀ stdout stderr, fileExists = true → fileSize ≠ 0 →
        tool = .completed 0 stdout stderr →
        parseFloatQ (stripChars stdout) = none →
        verifyPng fileExists fileSize tool = (false, .invalidAlpha stdout))
  ∧ (∀ stdout stderr q, fileExists = true → fileSize ≠ 0 →
        tool = .completed 0 stdout stderr →
        parseFloatQ (stripChars stdout) = some q →
        (q < (1 : ℚ) / 100 →
          verifyPng fileExists fileSize tool = (false, .allTransparent)) ∧
        ((1 : ℚ) / 100 ≤ q →
          verifyPng fileExists fileSize tool = (true, .valid)))
  ∧ ((verifyPng fileExists fileSize tool).1 = true →
        fileExists = true ∧ fileSize ≠ 0 ∧
        ∃ stdout stderr q, tool = .completed 0 stdout stderr ∧
          parseFloatQ (stripChars stdout) = some q ∧ (1 : ℚ) / 100 ≤ q)) := by
  refine ⟨⟨?_, ?_, ?_, ?_⟩, ?_, ?_, ?_, ?_⟩
  · intro h
    simp [verifyPng, h]
  · intro h h0
    simp [verifyPng, h, h0]
  · intro msg h h0 ht
    simp [verifyPng, h, h0, ht]
  · intro h h0 ht
    simp [verifyPng, h, h0, ht]
  · intro rc stdout stderr h h0 ht hrc
    simp [verifyPng, h, h0, ht, hrc]
  · intro stdout stderr h h0 ht hp
    simp [verifyPng, h, h0, ht, hp]
  · intro stdout stderr q h h0 ht hp
    constructor
    · intro hlt
      rw [one_div] at hlt
      simp [verifyPng, h, h0, ht, hp, hlt]
    · intro hge
      rw [one_div] at hge
      simp [verifyPng, h, h0, ht, hp, not_lt.mpr hge]
  · intro hv
    by_cases h : fileExists = false
    · simp [verifyPng, h] at hv
    · have hex : fileExists = true := by cases fileExists <;> simp_all
      by_cases h0 : fileSize = 0
      · simp [verifyPng, hex, h0] at hv
      · refine ⟨hex, h0, ?_⟩
        cases ht : tool with
        | raised msg => simp [verifyPng, hex, h0, ht] at hv
        | timedOut => simp [verifyPng, hex, h0, ht] at hv
        | completed rc stdout stderr =>
          by_cases hrc : rc = 0
          · subst hrc
            cases hp : parseFloatQ (stripChars stdout) with
            | none => simp [verifyPng, hex, h0, ht, hp] at hv
            | some q =>
              by_cases hq : q < (1 : ℚ) / 100
              · rw [one_div] at hq
                simp [verifyPng, hex, h0, ht, hp, hq] at hv
              · exact ⟨stdout, stderr, q, rfl, hp, not_lt.mp hq⟩
          · simp [verifyPng, hex, h0, ht, hrc] at hv

/-- C4 witness: the short-circuit and degradation cases at concrete
inputs, and a validation at mean alpha 0.5. -/
theorem validator_checks_witness :
    verifyPng false 7 (.raised "x") = (false, .notExist)
  ∧ verifyPng true 0 (.timedOut) = (false, .emptyFile)
  ∧ verifyPng true 7 (.raised "no identify") = (false, .verifyError "no identify")
  ∧ verifyPng true 7 (.timedOut) = (false, .timeoutMsg)
  ∧ verifyPng true 7 (.completed 1 [] (("boom").toList)) =
      (false, .identifyFailed (("boom").toList))
  ∧ verifyPng true 7 (.completed 0 (("zz").toList) []) =
      (false, .invalidAlpha (("zz").toList))
  ∧ verifyPng true 7 (.completed 0 (("0.5").toList) []) = (true, .valid) := by
  refine ⟨?_, ?_, ?_, ?_, ?_, ?_, ?_⟩
  · exact (validator_checks_in_order false 7 (.raised "x")).1.1 rfl
  · exact (validator_checks_in_order true 0 (.timedOut)).1.2.1 rfl rfl
  · exact (validator_checks_in_order true 7 (.raised "no identify")).1.2.2.1
      "no identify" rfl (by decide) rfl
  · exact (validator_checks_in_order true 7 (.timedOut)).1.2.2.2 rfl
      (by decide) rfl
  · exact (validator_checks_in_order true 7
      (.completed 1 [] (("boom").toList))).2.1 1 [] (("boom").toList) rfl
      (by decide) rfl (by decide)
  · exact (validator_checks_in_order true 7
      (.completed 0 (("zz").toList) [])).2.2.1 (("zz").toList) [] rfl
      (by decide) rfl (by decide)
  · have hp : parseFloatQ (stripChars (("0.5").toList)) = some ((1 : ℚ) / 2) := by
      have h1 : stripChars (("0.5").toList) = ['0', '.', '5'] := by decide
      rw [h1]
      simp [parseFloatQ, splitExp, splitAtChar, parseMantissa, allDigits,
        natOfDigits, digVal]
      norm_num
    exact ((validator_checks_in_order true 7
      (.completed 0 (("0.5").toList) [])).2.2.2.1 (("0.5").toList) []
      ((1 : ℚ) / 2) rfl (by decide) rfl hp).2 (by norm_num)

/-- C4 counterexample: at stdout `"0.01"` the parsed mean alpha is
exactly 1/100 — it does not strictly exceed the 0.01 threshold — yet
`verify_png` reports the file valid, because the code only rejects when
the mean is strictly below 0.01. -/
theorem validator_boundary_counterexample :
    verifyPng true 10 (.completed 0 (("0.01").toList) []) = (true, .valid)
  ∧ parseFloatQ (stripChars (("0.01").toList)) = some ((1 : ℚ) / 100)
  ∧ ¬((1 : ℚ) / 100 > (1 : ℚ) / 100) := by
  have hparse : parseFloatQ (stripChars (("0.01").toList)) =
      some ((1 : ℚ) / 100) := by
    have h1 : stripChars (("0.01").toList) = ['0', '.', '0', '1'] := by decide
    rw [h1]
    simp [parseFloatQ, splitExp, splitAtChar, parseMantissa, allDigits,
      natOfDigits, digVal]
    norm_num
  have hparse2 : parseFloatQ (stripChars ['0', '.', '0', '1']) =
      some ((1 : ℚ) / 100) := by
    have h1 : stripChars (("0.01").toList) = ['0', '.', '0', '1'] := by decide
    rw [← h1]
    exact hparse
  refine ⟨?_, hparse, by norm_num⟩
  simp [verifyPng, hparse, hparse2]

/-- C5: the rasterizer adapter deletes a pre-existing output file before
any attempt; it walks the symbol ids in the fixed order M, S, L and
returns success with the composited export of the first id whose probe
and final export both succeed (so an icon failing on the first id and
succeeding on the second is converted); when every id fails it returns
failure — non-fatal, reported through the returned flag — with a
diagnostic naming the source file, and no output file exists. -/
theorem rasterizer_order_and_deletion (env : ConvEnv) (size : Nat) :
    (((testOk env.mAttempt = false ∨
        (env.mAttempt.testImg.height ≠ 0 ∧ exportOk env.mAttempt = false)) →
      testOk env.sAttempt = true → env.sAttempt.testImg.height ≠ 0 →
      exportOk env.sAttempt = true →
      (convertModel env size).success = true ∧
      (convertModel env size).out =
        some (compositeCenter env.sAttempt.exportImg size)))
  ∧ ((∀ a ∈ attemptList env,
        testOk a = false ∨ (a.testImg.height ≠ 0 ∧ exportOk a = false)) →
      (convertModel env size).success = false ∧
      (convertModel env size).out = none ∧
      (convertModel env size).errMsg =
        some ("Error converting " ++ env.svgName ++ ": No valid symbol ID found"))
  ∧ (env.pngExists0 = true →
      env.pngPath ∈ (convertModel env size).unlinked) := by
  have hskip : ∀ (a : Attempt) (rest : List Attempt),
      (testOk a = false ∨ (a.testImg.height ≠ 0 ∧ exportOk a = false)) →
      tryIds size (a :: rest) = tryIds size rest := by
    intro a rest h
    rcases h with h | ⟨h1, h2⟩
    · simp [tryIds, h]
    · by_cases hta : testOk a = true
      · simp [tryIds, hta, h1, h2]
      · simp [tryIds, hta]
  refine ⟨?_, ?_, ?_⟩
  · intro hm hs1 hs2 hs3
    have htry : tryIds size (attemptList env) =
        .success (compositeCenter env.sAttempt.exportImg size) := by
      rw [attemptList, hskip _ _ hm]
      simp [tryIds, hs1, hs2, hs3]
    simp [convertModel, htry]
  · intro hall
    have hm := hall env.mAttempt (by simp [attemptList])
    have hs := hall env.sAttempt (by simp [attemptList])
    have hl := hall env.lAttempt (by simp [attemptList])
    have htry : tryIds size (attemptList env) = .exhausted := by
      rw [attemptList, hskip _ _ hm, hskip _ _ hs, hskip _ _ hl]
      rfl
    simp [convertModel, htry]
  · intro hpng
    cases htry : tryIds size (attemptList env) <;>
      simp [convertModel, htry, hpng]

/-- C5 witness: the sample environment, whose first attempt fails its
probe and whose second succeeds, converts and is left with the
composited second export; its pre-existing output file is deleted. -/
theorem rasterizer_order_witness :
    (convertModel sampleConvEnv 96).success = true
  ∧ (convertModel sampleConvEnv 96).out =
      some (compositeCenter sampleAttemptOk.exportImg 96)
  ∧ sampleConvEnv.pngPath ∈ (convertModel sampleConvEnv 96).unlinked := by
  obtain ⟨h1, h2⟩ := (rasterizer_order_and_deletion sampleConvEnv 96).1
    (Or.inl (by decide)) (by decide) (by decide) (by decide)
  exact ⟨h1, h2, (rasterizer_order_and_deletion sampleConvEnv 96).2.2 rfl⟩

/-- C10: on every exit path of the conversion routine — success, all
symbol ids exhausted, or the caught exception — the input SVG path is
neither unlinked nor written: the output pre-delete and the temp-PNG
unlink touch other paths, and the `finally` cleanup unlinks the
preprocessed temporary only when its path differs from the input, which
is automatic when a temporary exists and vacuous when preprocessing fell
back to the input path itself (in the fallback, only the output path and
the temp PNG are ever unlinked). -/
theorem convert_never_touches_input (env : ConvEnv) (size : Nat)
    (h1 : env.tmpSvgPath ≠ env.svgPath) (h2 : env.tmpPngPath ≠ env.svgPath)
    (h3 : env.pngPath ≠ env.svgPath) :
    (env.svgPath ∉ (convertModel env size).unlinked
  ∧ env.svgPath ∉ (convertModel env size).written)
  ∧ (preprocessSvg env.svgContent = none →
      ∀ p ∈ (convertModel env size).unlinked,
        p = env.pngPath ∨ p = env.tmpPngPath) := by
  have n1 : env.svgPath ≠ env.tmpSvgPath := fun he => h1 he.symm
  have n2 : env.svgPath ≠ env.tmpPngPath := fun he => h2 he.symm
  have n3 : env.svgPath ≠ env.pngPath := fun he => h3 he.symm
  have hnotin : ∀ b : Bool, env.svgPath ∉ (if b = true then [env.pngPath] else []) := by
    intro b
    cases b <;> simp [n3]
  have hnotclean : ∀ b : Bool, env.svgPath ∉ svgCleanup env b := by
    intro b
    cases b
    · simp [svgCleanup]
    · simp [svgCleanup, h1, n1]
  have hnotw : ∀ b : Bool, env.svgPath ∉ (if b = true then [env.tmpSvgPath] else []) := by
    intro b
    cases b <;> simp [n1]
  constructor
  · constructor
    · cases htry : tryIds size (attemptList env) <;>
        simp [convertModel, htry, hnotin, hnotclean, n2]
    · cases htry : tryIds size (attemptList env) <;>
        simp [convertModel, htry, hnotw, n2, n3]
  · intro hnone p hp
    have hpp : (preprocessSvg env.svgContent).isSome = false := by
      simp [hnone]
    have hclean : svgCleanup env (preprocessSvg env.svgContent).isSome = [] := by
      rw [hpp]
      simp [svgCleanup]
    cases htry : tryIds size (attemptList env) <;>
      by_cases hpe : env.pngExists0 = true <;>
      simp [convertModel, htry, hclean, hpe] at hp <;>
      tauto

/-- C10 witness: on the sample environment the input path is untouched,
and — its document holding no Symbols tag, so preprocessing falls back —
only the output path and the temp PNG are ever unlinked. -/
theorem convert_never_touches_input_witness :
    (sampleConvEnv.svgPath ∉ (convertModel sampleConvEnv 96).unlinked
  ∧ sampleConvEnv.svgPath ∉ (convertModel sampleConvEnv 96).written)
  ∧ ∀ p ∈ (convertModel sampleConvEnv 96).unlinked,
      p = sampleConvEnv.pngPath ∨ p = sampleConvEnv.tmpPngPath :=
  ⟨(convert_never_touches_input sampleConvEnv 96 (by decide) (by decide)
      (by decide)).1,
   (convert_never_touches_input sampleConvEnv 96 (by decide) (by decide)
      (by decide)).2 (by decide)⟩

/-! ## Helper lemmas on the batch counters -/

theorem batch_foldl_counts (env : String → IconRun)
    (l : List (String × String)) (acc : Nat × Nat × Nat) :
    l.foldl
      (fun acc it =>
        match runIcon (env it.1) with
        | .ok => (acc.1 + 1, acc.2.1, acc.2.2)
        | .invalid => (acc.1, acc.2.1 + 1, acc.2.2)
        | .failed => (acc.1, acc.2.1, acc.2.2 + 1)) acc =
      (acc.1 + l.countP (fun it => runIcon (env it.1) == .ok),
       acc.2.1 + l.countP (fun it => runIcon (env it.1) == .invalid),
       acc.2.2 + l.countP (fun it => runIcon (env it.1) == .failed)) := by
  induction l generalizing acc with
  | nil => simp
  | cons x xs ih =>
    simp only [List.foldl_cons, List.countP_cons]
    cases hx : runIcon (env x.1) <;>
      simp [ih, hx] <;> omega

theorem countP_insertSorted (p : (String × String) → Bool)
    (x : String × String) (l : List (String × String)) :
    (insertSorted x l).countP p =
      l.countP p + (if p x then 1 else 0) := by
  induction l with
  | nil => simp [insertSorted, List.countP_cons]
  | cons y ys ih =>
    rw [insertSorted]
    split
    · simp only [List.countP_cons]
    · simp only [List.countP_cons, ih]
      ring

theorem countP_sortMapping (p : (String × String) → Bool)
    (l : List (String × String)) :
    (sortMapping l).countP p = l.countP p := by
  induction l with
  | nil => rfl
  | cons x xs ih =>
    have hfold : sortMapping (x :: xs) = insertSorted x (sortMapping xs) := rfl
    rw [hfold, countP_insertSorted, ih, List.countP_cons]

theorem mem_sortMapping {x : String × String} {l : List (String × String)} :
    x ∈ sortMapping l ↔ x ∈ l := by
  have hmem : ∀ (y : String × String) (m : List (String × String)),
      x ∈ insertSorted y m ↔ (x = y ∨ x ∈ m) := by
    intro y m
    induction m with
    | nil => simp [insertSorted]
    | cons z zs ih =>
      rw [insertSorted]
      split
      · simp
      · simp only [List.mem_cons, ih]
        tauto
  induction l with
  | nil => simp [sortMapping]
  | cons y ys ih =>
    have hfold : sortMapping (y :: ys) = insertSorted y (sortMapping ys) := rfl
    rw [hfold]
    simp only [hmem, ih, List.mem_cons]

/-- C1: the batch exit status is 0 exactly when every configured icon in
the mapping converts and validates (`runIcon` yields `ok`); every icon is
classified as exactly one of converted / invalid / failed (counts equal
`countP` over the whole mapping: nothing aborts the loop), and a mapping
with one icon whose source file is absent reports 1 failed, 0 converted,
0 invalid, exit status 1. -/
theorem batch_exit_status (mapping : List (String × String))
    (env : String → IconRun) :
    ((runBatch mapping env).exitCode = 0 ↔
      ∀ it ∈ mapping, runIcon (env it.1) = .ok)
  ∧ (runBatch mapping env).converted =
      mapping.countP (fun it => runIcon (env it.1) == .ok)
  ∧ (runBatch mapping env).invalid =
      mapping.countP (fun it => runIcon (env it.1) == .invalid)
  ∧ (runBatch mapping env).failed =
      mapping.countP (fun it => runIcon (env it.1) == .failed)
  ∧ (∀ name rel, (env name).srcExists = false →
      runBatch [(name, rel)] env = ⟨0, 0, 1, 1⟩) := by
  have hlen : (sortMapping mapping).length = mapping.length := by
    have h1 : (sortMapping mapping).countP (fun _ => true) =
        mapping.countP (fun _ => true) := countP_sortMapping _ _
    simpa [List.countP_true] using h1
  have hc := batch_foldl_counts env (sortMapping mapping) (0, 0, 0)
  have hco : (runBatch mapping env).converted =
      mapping.countP (fun it => runIcon (env it.1) == .ok) := by
    simp only [runBatch, hc, Nat.zero_add]
    exact countP_sortMapping _ _
  have hin : (runBatch mapping env).invalid =
      mapping.countP (fun it => runIcon (env it.1) == .invalid) := by
    simp only [runBatch, hc, Nat.zero_add]
    exact countP_sortMapping _ _
  have hfa : (runBatch mapping env).failed =
      mapping.countP (fun it => runIcon (env it.1) == .failed) := by
    simp only [runBatch, hc, Nat.zero_add]
    exact countP_sortMapping _ _
  refine ⟨?_, hco, hin, hfa, ?_⟩
  · have hexit : (runBatch mapping env).exitCode =
        (if mapping.countP (fun it => runIcon (env it.1) == .ok) =
            mapping.length then 0 else 1) := by
      simp only [runBatch, hc, Nat.zero_add, countP_sortMapping]
    rw [hexit]
    constructor
    · intro h
      by_cases hcnt : mapping.countP (fun it => runIcon (env it.1) == .ok) =
          mapping.length
      · intro it hit
        have := List.countP_eq_length.mp hcnt it hit
        simpa using this
      · simp [hcnt] at h
    · intro h
      have : mapping.countP (fun it => runIcon (env it.1) == .ok) =
          mapping.length :=
        List.countP_eq_length.mpr (fun a ha => by simp [h a ha])
      simp [this]
  · intro name rel h
    have hicon : runIcon (env name) = .failed := by
      simp [runIcon, h]
    simp [runBatch, sortMapping, insertSorted, hicon]

/-- C1 witness: a one-icon mapping whose source is absent yields the
summary (0 converted, 0 invalid, 1 failed, exit 1). -/
theorem batch_exit_status_witness :
    runBatch [("icon.a", "icon.a.symbolset/icon.a.svg")]
        (fun _ => sampleIconRunAbsent) = ⟨0, 0, 1, 1⟩ :=
  (batch_exit_status [("icon.a", "icon.a.symbolset/icon.a.svg")]
    (fun _ => sampleIconRunAbsent)).2.2.2.2 "icon.a"
    "icon.a.symbolset/icon.a.svg" rfl

/-- C8 (spec-modelled v1 driver): the v1 batch driver checks the
rasterizer availability once, before any per-icon work; that startup
check failing is the only way the batch aborts, and when the check
passes the batch always runs to completion with a summary. -/
theorem v1_startup_check (probe : ProbeOutcome)
    (mapping : List (String × String)) (env : String → IconRun) :
    (mainV1 probe mapping env = none ↔ check_rsvg_convert probe = false)
  ∧ (check_rsvg_convert probe = true →
      mainV1 probe mapping env = some (runBatch mapping env)) := by
  constructor
  · constructor
    · intro h
      cases hc : check_rsvg_convert probe
      · rfl
      · simp [mainV1, hc] at h
    · intro h
      simp [mainV1, h]
  · intro h
    simp [mainV1, h]

/-- C8 witness: a missing tool aborts; a zero exit code proceeds into
the batch over the static mapping. -/
theorem v1_startup_check_witness :
    mainV1 .notFound ICON_MAPPINGS (fun _ => sampleIconRunAbsent) = none
  ∧ mainV1 (.ran 0) ICON_MAPPINGS (fun _ => sampleIconRunAbsent) =
      some (runBatch ICON_MAPPINGS (fun _ => sampleIconRunAbsent)) :=
  ⟨(v1_startup_check .notFound ICON_MAPPINGS (fun _ => sampleIconRunAbsent)).1.mpr
      rfl,
   (v1_startup_check (.ran 0) ICON_MAPPINGS (fun _ => sampleIconRunAbsent)).2
      rfl⟩

end SVGConv
